import Mathlib

/-!
Verification development for the row-iteration execution engine of a SQL
engine (multi-table UPDATE write path, EXISTS evaluation, LOAD DATA field
parsing).  Pure fragments of the source are translated directly; stateful
Go code is embedded as explicit state passing.  Parts of the engine whose
code is absent from the excerpt (the Update operator, the validation pass
and the scalar-subquery evaluator; only their tests and callers are
present) are modelled from the specification and marked as such in their
doc comments.
-/

set_option autoImplicit false

namespace GmsSpec

/-- SQL values as the engine's dynamic value vocabulary (NULL, integers,
strings).  Rows are positional sequences of these values. -/
inductive Val where
  | vnull
  | vint (n : Int)
  | vstr (s : String)
deriving DecidableEq, Repr

/-- A row is an ordered sequence of values positionally aligned to a
schema. -/
abbrev Row := List Val

/-- Resolved scalar expressions: literals, schema-index column references
and the arithmetic and comparison combinators the UPDATE tests use. -/
inductive Expr where
  | lit (v : Val)
  | col (i : Nat)
  | add (a b : Expr)
  | eqE (a b : Expr)
deriving DecidableEq, Repr

/-- Evaluation of a resolved expression against a row.  Arithmetic is
integer arithmetic with NULL propagation; the comparison returns the
MySQL-style 1 or 0 integer and NULL when either side is NULL. -/
def evalExpr (r : Row) : Expr → Val
  | .lit v => v
  | .col i => r.getD i .vnull
  | .add a b =>
    match evalExpr r a, evalExpr r b with
    | .vint m, .vint n => .vint (m + n)
    | _, _ => .vnull
  | .eqE a b =>
    match evalExpr r a, evalExpr r b with
    | .vnull, _ => .vnull
    | _, .vnull => .vnull
    | x, y => if x = y then .vint 1 else .vint 0

/-- Modelled from the spec: assignments of an UPDATE are applied in their
declared left-to-right order into a working copy of the row; each
assignment's value expression is evaluated against the row as it stands
after the prior assignments of the same application.  (The Update
operator itself is absent from the source excerpt.) -/
def applyAssignments (assigns : List (Nat × Expr)) (r : Row) : Row :=
  assigns.foldl (fun acc a => acc.set a.1 (evalExpr acc a.2)) r

/-- Outcome of a single-target UPDATE run: the resulting table, the list
of (old row, new row) pairs handed to the table's update primitive, and
the matched and updated counters of the summary row. -/
structure SingleResult where
  table : List Row
  writes : List (Row × Row)
  matched : Nat
  updated : Nat
deriving DecidableEq, Repr

/-- Modelled from the spec: the single-target Update operator.  For each
row of the table accepted by the WHERE predicate it applies the
assignments to a working copy; if the new row equals the old one the row
counts as matched but not updated and no write is issued, otherwise the
new row is handed to the update primitive and both counters grow.  (The
Update operator itself is absent from the source excerpt.) -/
def runUpdate (assigns : List (Nat × Expr)) (pred : Row → Bool) : List Row → SingleResult
  | [] => ⟨[], [], 0, 0⟩
  | r :: rest =>
    let s := runUpdate assigns pred rest
    if pred r then
      let r2 := applyAssignments assigns r
      if r2 = r then ⟨r :: s.table, s.writes, s.matched + 1, s.updated⟩
      else ⟨r2 :: s.table, (r, r2) :: s.writes, s.matched + 1, s.updated + 1⟩
    else ⟨r :: s.table, s.writes, s.matched, s.updated⟩

theorem runUpdate_matched_ge_updated (assigns : List (Nat × Expr)) (pred : Row → Bool)
    (rows : List Row) : (runUpdate assigns pred rows).updated ≤ (runUpdate assigns pred rows).matched := by
  induction rows with
  | nil => simp [runUpdate]
  | cons r rest ih =>
    simp only [runUpdate]
    split
    · split
      · simpa using Nat.le_succ_of_le ih
      · simpa using Nat.succ_le_succ ih
    · simpa using ih

example :
    runUpdate [(1, .lit (.vstr "updated"))] (fun _ => true)
      [[.vint 1, .vstr "first row"], [.vint 2, .vstr "second row"], [.vint 3, .vstr "third row"]] =
    ⟨[[.vint 1, .vstr "updated"], [.vint 2, .vstr "updated"], [.vint 3, .vstr "updated"]],
      [([.vint 1, .vstr "first row"], [.vint 1, .vstr "updated"]),
       ([.vint 2, .vstr "second row"], [.vint 2, .vstr "updated"]),
       ([.vint 3, .vstr "third row"], [.vint 3, .vstr "updated"])], 3, 3⟩ := by decide

/-! ### Joined (multi-target) UPDATE -/

/-- One update target of a joined UPDATE: the base table it resolves to,
the position and width of its column block inside the joined row, and the
indices (relative to that block) of its primary-key columns. -/
structure JoinTarget where
  tid : String
  start : Nat
  width : Nat
  pks : List Nat
deriving DecidableEq, Repr

/-- TargetIdentity: target table identifier together with the tuple of
primary-key values, the unit of write deduplication. -/
abbrev Ident := String × List Val

/-- Column block of one target inside a joined row (the provenance split
of the concatenated JoinRow). -/
def subRow (t : JoinTarget) (r : Row) : Row := (r.drop t.start).take t.width

/-- TargetIdentity of one appearance: the target table plus the
primary-key values read from the target's block of the joined row. -/
def identOf (t : JoinTarget) (r : Row) : Ident :=
  (t.tid, t.pks.map (fun i => (subRow t r).getD i .vnull))

/-- State of the joined Update operator: the per-statement set of
identities already written, the ordered list of writes issued to the
update primitives, and the two counters of the summary row. -/
structure JoinedState where
  written : List Ident
  writes : List (Ident × Row)
  matched : Nat
  updated : Nat
deriving DecidableEq, Repr

/-- Modelled from the spec: processing of the targets for one child row of
a joined UPDATE.  Every appearance (one per target per child row)
increments matched; the appearance's TargetIdentity is looked up in the
per-statement written set and, if present, the appearance is skipped for
writing regardless of its computed value; if it is new, the new column
block is written and the identity recorded.  (The joined Update operator
is absent from the source excerpt.) -/
def runTargets (newJ : Row) (r : Row) : List JoinTarget → JoinedState → JoinedState
  | [], st => st
  | t :: ts, st =>
    let idn := identOf t r
    if idn ∈ st.written then
      runTargets newJ r ts ⟨st.written, st.writes, st.matched + 1, st.updated⟩
    else
      runTargets newJ r ts
        ⟨idn :: st.written, st.writes ++ [(idn, subRow t newJ)], st.matched + 1, st.updated + 1⟩

/-- Modelled from the spec: the joined Update operator consumes the child
iterator's rows in order; for each child row the assignments (declared
order, each expression seeing the prior assignments' effects) are applied
to the full joined row and every target's block is then considered. -/
def runChild (targets : List JoinTarget) (assigns : List (Nat × Expr)) :
    List Row → JoinedState → JoinedState
  | [], st => st
  | r :: rs, st => runChild targets assigns rs (runTargets (applyAssignments assigns r) r targets st)

/-- Full run of the joined Update operator from the empty per-statement
state. -/
def runJoined (targets : List JoinTarget) (assigns : List (Nat × Expr)) (child : List Row) :
    JoinedState :=
  runChild targets assigns child ⟨[], [], 0, 0⟩

/-- Appearances of target blocks in one child row: for each target, its
identity and the value its block would be written with. -/
def rowApps (ts : List JoinTarget) (newJ : Row) (r : Row) : List (Ident × Row) :=
  ts.map (fun t => (identOf t r, subRow t newJ))

/-- All appearances of the statement, in child-iterator order. -/
def appearances (ts : List JoinTarget) (assigns : List (Nat × Expr)) : List Row → List (Ident × Row)
  | [] => []
  | r :: rs => rowApps ts (applyAssignments assigns r) r ++ appearances ts assigns rs

/-- Keep only the first appearance of each identity (the deduplication
policy of the per-statement written set). -/
def dedupF : List (Ident × Row) → List Ident → List (Ident × Row)
  | [], _ => []
  | (i, v) :: rest, seen =>
    if i ∈ seen then dedupF rest seen else (i, v) :: dedupF rest (i :: seen)

/-- Identities seen after scanning a list of appearances. -/
def seenAfter : List (Ident × Row) → List Ident → List Ident
  | [], s => s
  | (i, _) :: rest, s => seenAfter rest (if i ∈ s then s else i :: s)

theorem dedupF_append (a b : List (Ident × Row)) (s : List Ident) :
    dedupF (a ++ b) s = dedupF a s ++ dedupF b (seenAfter a s) := by
  induction a generalizing s with
  | nil => simp [dedupF, seenAfter]
  | cons hd tl ih =>
    obtain ⟨i, v⟩ := hd
    by_cases h : i ∈ s <;> simp [dedupF, seenAfter, h, ih]

theorem seenAfter_append (a b : List (Ident × Row)) (s : List Ident) :
    seenAfter (a ++ b) s = seenAfter b (seenAfter a s) := by
  induction a generalizing s with
  | nil => simp [seenAfter]
  | cons hd tl ih =>
    obtain ⟨i, v⟩ := hd
    simp [seenAfter, ih]

theorem length_dedupF_le (l : List (Ident × Row)) (s : List Ident) :
    (dedupF l s).length ≤ l.length := by
  induction l generalizing s with
  | nil => simp [dedupF]
  | cons hd tl ih =>
    obtain ⟨i, v⟩ := hd
    by_cases h : i ∈ s
    · simp only [dedupF, if_pos h]
      exact Nat.le_succ_of_le (ih s)
    · simp only [dedupF, if_neg h, List.length_cons]
      exact Nat.succ_le_succ (ih (i :: s))

/-- Characterization of one child row's target processing: matched grows
by the number of targets, the writes are the first-seen appearances, the
written set grows to the seen set, and updated grows by the number of
first-seen appearances. -/
theorem runTargets_spec (ts : List JoinTarget) (st : JoinedState) (newJ r : Row) :
    runTargets newJ r ts st =
      ⟨seenAfter (rowApps ts newJ r) st.written,
       st.writes ++ dedupF (rowApps ts newJ r) st.written,
       st.matched + ts.length,
       st.updated + (dedupF (rowApps ts newJ r) st.written).length⟩ := by
  induction ts generalizing st with
  | nil => simp [runTargets, rowApps, dedupF, seenAfter]
  | cons t ts ih =>
    by_cases h : identOf t r ∈ st.written
    · simp only [runTargets, if_pos h, ih, rowApps, List.map_cons, dedupF, seenAfter, if_pos h]
      congr 1
      all_goals first | trivial | (simp; done) | omega | (simp; omega)
    · simp only [runTargets, if_neg h, ih, rowApps, List.map_cons, dedupF, seenAfter, if_neg h]
      congr 1
      all_goals first | trivial | (simp; done) | omega | (simp; omega)

/-- Characterization of the full joined run from an arbitrary state. -/
theorem runChild_spec (targets : List JoinTarget) (assigns : List (Nat × Expr))
    (child : List Row) (st : JoinedState) :
    runChild targets assigns child st =
      ⟨seenAfter (appearances targets assigns child) st.written,
       st.writes ++ dedupF (appearances targets assigns child) st.written,
       st.matched + (appearances targets assigns child).length,
       st.updated + (dedupF (appearances targets assigns child) st.written).length⟩ := by
  induction child generalizing st with
  | nil => simp [runChild, appearances, dedupF, seenAfter]
  | cons r rs ih =>
    simp only [runChild, runTargets_spec, ih, appearances, dedupF_append, seenAfter_append]
    congr 1 <;> first | trivial | (simp [rowApps]; done) | omega | (simp [rowApps]; omega)

theorem dedupF_countP_of_mem (l : List (Ident × Row)) (s : List Ident) (i : Ident)
    (hi : i ∈ s) : (dedupF l s).countP (fun w => w.1 = i) = 0 := by
  induction l generalizing s with
  | nil => simp [dedupF]
  | cons hd tl ih =>
    obtain ⟨j, v⟩ := hd
    by_cases h : j ∈ s
    · simpa [dedupF, if_pos h] using ih s hi
    · have hji : ¬(j = i) := fun e => h (e ▸ hi)
      simp only [dedupF, if_neg h, List.countP_cons]
      simpa [hji] using ih (j :: s) (List.mem_cons_of_mem j hi)

theorem dedupF_countP_le_one (l : List (Ident × Row)) (s : List Ident) (i : Ident) :
    (dedupF l s).countP (fun w => w.1 = i) ≤ 1 := by
  induction l generalizing s with
  | nil => simp [dedupF]
  | cons hd tl ih =>
    obtain ⟨j, v⟩ := hd
    by_cases h : j ∈ s
    · simpa [dedupF, if_pos h] using ih s
    · by_cases hji : j = i
      · subst hji
        simp only [dedupF, if_neg h, List.countP_cons]
        have := dedupF_countP_of_mem tl (j :: s) j (List.mem_cons_self j s)
        simp [this]
      · simp only [dedupF, if_neg h, List.countP_cons]
        simpa [hji] using ih (j :: s)

theorem dedupF_find_eq (l : List (Ident × Row)) (s : List Ident) (i : Ident) (hi : i ∉ s) :
    (dedupF l s).find? (fun w => w.1 = i) = l.find? (fun w => w.1 = i) := by
  induction l generalizing s with
  | nil => simp [dedupF]
  | cons hd tl ih =>
    obtain ⟨j, v⟩ := hd
    by_cases hji : j = i
    · subst hji
      have h : j ∉ s := hi
      simp [dedupF, if_neg h, List.find?]
    · by_cases h : j ∈ s
      · simp only [dedupF, if_pos h]
        rw [ih s hi]
        simp [List.find?, hji]
      · simp only [dedupF, if_neg h, List.find?]
        have hi2 : i ∉ j :: s := by
          intro hc
          rcases List.mem_cons.mp hc with hc | hc
          · exact hji hc.symm
          · exact hi hc
        simpa [hji] using ih (j :: s) hi2

/-! ### Concrete data of the independent-joins UPDATE test

Tables `one_pk` and `two_pk` as set up by the engine tests, the inner
join on `one_pk.pk = two_pk.pk1`, and the assignment list of
`SET one_pk.c1 = one_pk.c1 + 1, two_pk.c1 = two_pk.c2 + 1`. -/

/-- Inner-join operator: for each left row the right child's full output
is iterated and the concatenated JoinRow is emitted when the ON predicate
evaluates true. -/
def innerJoin (ls rs : List Row) (pred : Row → Bool) : List Row :=
  match ls with
  | [] => []
  | a :: ltl => (rs.map (fun b => a ++ b)).filter pred ++ innerJoin ltl rs pred

/-- Rows of the test table one_pk: (pk, c1, c2, c3, c4, c5). -/
def onePkRows : List Row :=
  [[.vint 0, .vint 0, .vint 1, .vint 2, .vint 3, .vint 4],
   [.vint 1, .vint 10, .vint 11, .vint 12, .vint 13, .vint 14],
   [.vint 2, .vint 20, .vint 21, .vint 22, .vint 23, .vint 24],
   [.vint 3, .vint 30, .vint 31, .vint 32, .vint 33, .vint 34]]

/-- Rows of the test table two_pk: (pk1, pk2, c1, c2, c3, c4, c5). -/
def twoPkRows : List Row :=
  [[.vint 0, .vint 0, .vint 0, .vint 1, .vint 2, .vint 3, .vint 4],
   [.vint 0, .vint 1, .vint 10, .vint 11, .vint 12, .vint 13, .vint 14],
   [.vint 1, .vint 0, .vint 20, .vint 21, .vint 22, .vint 23, .vint 24],
   [.vint 1, .vint 1, .vint 30, .vint 31, .vint 32, .vint 33, .vint 34]]

/-- Update targets of the joined statement: one_pk occupies columns 0..5
of the joined row with primary key column 0; two_pk occupies columns
6..12 with primary key columns 0 and 1 of its block. -/
def joinedTargets : List JoinTarget :=
  [⟨"one_pk", 0, 6, [0]⟩, ⟨"two_pk", 6, 7, [0, 1]⟩]

/-- Assignments of the joined statement in declared order:
one_pk.c1 = one_pk.c1 + 1 (joined column 1), then
two_pk.c1 = two_pk.c2 + 1 (joined column 8 from joined column 9). -/
def joinedAssigns : List (Nat × Expr) :=
  [(1, .add (.col 1) (.lit (.vint 1))), (8, .add (.col 9) (.lit (.vint 1)))]

/-- Child iterator output of the joined statement: the inner join of
one_pk and two_pk on one_pk.pk = two_pk.pk1. -/
def joinedChild : List Row :=
  innerJoin onePkRows twoPkRows (fun r => r.getD 0 .vnull == r.getD 6 .vnull)

/-- Replay of the writes of a joined run onto one base table: each stored
row whose identity was written is replaced by the written block. -/
def applyWritesTable (tid : String) (pks : List Nat) (writes : List (Ident × Row))
    (rows : List Row) : List Row :=
  rows.map (fun row =>
    match writes.find? (fun w => w.1 = (tid, pks.map (fun i => row.getD i Val.vnull))) with
    | some w => w.2
    | none => row)

example : joinedChild.length = 4 := by decide

/-- Expected contents of two_pk after the joined statement, from the
engine test's SELECT expectation. -/
def expectedTwoPk : List Row :=
  [[.vint 0, .vint 0, .vint 2, .vint 1, .vint 2, .vint 3, .vint 4],
   [.vint 0, .vint 1, .vint 12, .vint 11, .vint 12, .vint 13, .vint 14],
   [.vint 1, .vint 0, .vint 22, .vint 21, .vint 22, .vint 23, .vint 24],
   [.vint 1, .vint 1, .vint 32, .vint 31, .vint 32, .vint 33, .vint 34]]

/-- C1: in a joined multi-target UPDATE, matched counts every appearance
(one per target per child row, so an identity appearing k times adds k),
while at most one write is issued per target-row identity, namely at its
first appearance with the value computed there, later appearances being
skipped regardless of their computed value; on the independent-joins test
data the summary is matched = 8, updated = 6 and two_pk ends up as the
test expects. -/
theorem joined_update_dedup_by_identity :
    (∀ (ts : List JoinTarget) (asg : List (Nat × Expr)) (child : List Row),
      (runJoined ts asg child).matched = (appearances ts asg child).length ∧
      (runJoined ts asg child).updated = (runJoined ts asg child).writes.length ∧
      (∀ i : Ident, ((runJoined ts asg child).writes.countP (fun w => w.1 = i)) ≤ 1 ∧
        (runJoined ts asg child).writes.find? (fun w => w.1 = i) =
          (appearances ts asg child).find? (fun w => w.1 = i))) ∧
    (runJoined joinedTargets joinedAssigns joinedChild).matched = 8 ∧
    (runJoined joinedTargets joinedAssigns joinedChild).updated = 6 ∧
    applyWritesTable "two_pk" [0, 1] (runJoined joinedTargets joinedAssigns joinedChild).writes
      twoPkRows = expectedTwoPk := by
  refine ⟨?_, by decide, by decide, by decide⟩
  intro ts asg child
  have h := runChild_spec ts asg child ⟨[], [], 0, 0⟩
  refine ⟨?_, ?_, ?_⟩
  · rw [runJoined, h]
    simp
  · rw [runJoined, h]
    simp
  · intro i
    constructor
    · rw [runJoined, h]
      simpa using dedupF_countP_le_one (appearances ts asg child) [] i
    · rw [runJoined, h]
      simpa using dedupF_find_eq (appearances ts asg child) [] i (by simp)

/-- C2: for every UPDATE statement, single-target or joined and whatever
the child stream the WHERE, ORDER BY, LIMIT and OFFSET operators beneath
the Update operator expose, the summary row satisfies
matched greater than or equal to updated. -/
theorem update_summary_matched_ge_updated :
    (∀ (asg : List (Nat × Expr)) (pred : Row → Bool) (rows : List Row),
      (runUpdate asg pred rows).updated ≤ (runUpdate asg pred rows).matched) ∧
    (∀ (ts : List JoinTarget) (asg : List (Nat × Expr)) (child : List Row),
      (runJoined ts asg child).updated ≤ (runJoined ts asg child).matched) := by
  refine ⟨runUpdate_matched_ge_updated, ?_⟩
  intro ts asg child
  rw [runJoined, runChild_spec ts asg child ⟨[], [], 0, 0⟩]
  simpa using length_dedupF_le (appearances ts asg child) []

/-! ### Single-target UPDATE: duplicate assignments and no-op rows -/

theorem list_getD_set_self {α : Type} (l : List α) (i : Nat) (v d : α) (h : i < l.length) :
    (l.set i v).getD i d = v := by
  induction l generalizing i with
  | nil => simp at h
  | cons a tl ih =>
    cases i with
    | zero => simp [List.set]
    | succ n =>
      simp only [List.set, List.getD_cons_succ]
      exact ih n (by simpa using h)

theorem list_set_set {α : Type} (l : List α) (i : Nat) (a b : α) :
    (l.set i a).set i b = l.set i b := by
  induction l generalizing i with
  | nil => simp
  | cons hd tl ih =>
    cases i with
    | zero => simp [List.set]
    | succ n => simp [List.set, ih]

theorem list_map_id_of {α : Type} (l : List α) (f : α → α) (h : ∀ a ∈ l, f a = a) :
    l.map f = l := by
  induction l with
  | nil => simp
  | cons hd tl ih =>
    simp only [List.map_cons, h hd (List.mem_cons_self hd tl)]
    rw [ih (fun a ha => h a (List.mem_cons_of_mem hd ha))]

/-- Runs where no row satisfies the predicate leave the table untouched,
issue no write and count nothing. -/
theorem runUpdate_noMatch (asg : List (Nat × Expr)) (pred : Row → Bool) (rows : List Row)
    (h : ∀ r ∈ rows, pred r = false) : runUpdate asg pred rows = ⟨rows, [], 0, 0⟩ := by
  induction rows with
  | nil => simp [runUpdate]
  | cons r rest ih =>
    have hr := h r (List.mem_cons_self r rest)
    simp only [runUpdate, hr, ih (fun x hx => h x (List.mem_cons_of_mem r hx))]
    simp

/-- C3: duplicate assignments to the same column are applied left to
right into a working copy of the row, each value expression evaluated
against the row after the prior assignments (so a later column reference
sees the earlier write), the last assignment wins, and a statement
SET c1 = 5, c1 = 4 whose WHERE matches exactly one row (whose c1 is not
already 4) yields that row with c1 = 4, matched = 1 and updated = 1. -/
theorem duplicate_assignment_last_wins :
    (∀ (r : Row) (j k : Nat), j < r.length → k < r.length →
      (applyAssignments [(j, .lit (.vint 5)), (k, .col j)] r).getD k .vnull = .vint 5) ∧
    (∀ (r : Row) (j : Nat),
      applyAssignments [(j, .lit (.vint 5)), (j, .lit (.vint 4))] r = r.set j (.vint 4)) ∧
    (∀ (rows : List Row) (pred : Row → Bool) (j : Nat),
      rows.countP pred = 1 →
      (∀ r ∈ rows, pred r = true → j < r.length ∧ r.getD j .vnull ≠ .vint 4) →
      runUpdate [(j, .lit (.vint 5)), (j, .lit (.vint 4))] pred rows =
        ⟨rows.map (fun r => if pred r then r.set j (.vint 4) else r),
         (rows.filter pred).map (fun r => (r, r.set j (.vint 4))), 1, 1⟩) := by
  have happ : ∀ (r : Row) (j : Nat),
      applyAssignments [(j, Expr.lit (Val.vint 5)), (j, Expr.lit (Val.vint 4))] r =
        r.set j (Val.vint 4) := by
    intro r j
    simp only [applyAssignments, List.foldl_cons, List.foldl_nil, evalExpr]
    exact list_set_set r j _ _
  refine ⟨?_, happ, ?_⟩
  · intro r j k hj hk
    simp only [applyAssignments, List.foldl_cons, List.foldl_nil, evalExpr]
    rw [list_getD_set_self r j (Val.vint 5) Val.vnull hj]
    exact list_getD_set_self _ k _ _ (by simpa using hk)
  · intro rows pred j hcount hrows
    induction rows with
    | nil => simp at hcount
    | cons r rest ih =>
      by_cases hp : pred r = true
      · have hrest : rest.countP pred = 0 := by
          have h1 := hcount
          simp only [List.countP_cons, hp, if_true] at h1
          omega
        have hnone : ∀ x ∈ rest, pred x = false := by
          intro x hx
          have := List.countP_eq_zero.mp hrest x hx
          simpa using this
        obtain ⟨hjlen, hne⟩ := hrows r (List.mem_cons_self r rest) hp
        have hchg : r.set j (Val.vint 4) ≠ r := by
          intro he
          apply hne
          have h2 := congrArg (fun l => List.getD l j Val.vnull) he
          simp only at h2
          rw [list_getD_set_self r j (Val.vint 4) Val.vnull hjlen] at h2
          exact h2.symm
        simp only [runUpdate, hp, if_true, runUpdate_noMatch _ pred rest hnone, happ r j,
          if_neg hchg]
        have hmap : rest.map (fun r => if pred r then r.set j (Val.vint 4) else r) = rest :=
          list_map_id_of rest _ (fun x hx => by simp [hnone x hx])
        have hfil : rest.filter pred = [] := List.filter_eq_nil_iff.mpr (by
          intro x hx
          simp [hnone x hx])
        simp [hmap, hfil, hp]
      · have hp2 : pred r = false := by simpa using hp
        have hcount2 : rest.countP pred = 1 := by
          simpa [List.countP_cons, hp2] using hcount
        have ihr := ih hcount2 (fun x hx => hrows x (List.mem_cons_of_mem r hx))
        simp only [runUpdate, hp2, Bool.false_eq_true, if_false, ihr]
        simp [hp2]

/-- C4: rows whose post-assignment tuple equals the pre-assignment tuple
are matched but not updated, no write is issued and the table is left
unchanged; an UPDATE whose assignments change no qualifying row reports
matched = N (the qualifying count) and updated = 0. -/
theorem noop_update_no_writes (asg : List (Nat × Expr)) (pred : Row → Bool) (rows : List Row)
    (h : ∀ r ∈ rows, pred r = true → applyAssignments asg r = r) :
    runUpdate asg pred rows = ⟨rows, [], rows.countP pred, 0⟩ := by
  induction rows with
  | nil => simp [runUpdate]
  | cons r rest ih =>
    have ihr := ih (fun x hx => h x (List.mem_cons_of_mem r hx))
    by_cases hp : pred r = true
    · have hid := h r (List.mem_cons_self r rest) hp
      simp only [runUpdate, hp, if_true, hid, ihr]
      simp [List.countP_cons, hp]
    · have hp2 : pred r = false := by simpa using hp
      simp only [runUpdate, hp2, Bool.false_eq_true, if_false, ihr]
      simp [List.countP_cons, hp2]

/-- Rows of the test table mytable: (i, s). -/
def mytableRows : List Row :=
  [[.vint 1, .vstr "first row"], [.vint 2, .vstr "second row"], [.vint 3, .vstr "third row"]]

/-- Witness for C4 at the test UPDATE mytable SET s = s: all three rows
match, none changes, nothing is written. -/
theorem noop_update_no_writes_witness :
    runUpdate [(1, Expr.col 1)] (fun _ => true) mytableRows = ⟨mytableRows, [], 3, 0⟩ := by
  have h := noop_update_no_writes [(1, Expr.col 1)] (fun _ => true) mytableRows (by decide)
  rw [h]
  decide

/-- Witness for C3 on a concrete two-row table whose WHERE matches the
first row only. -/
theorem duplicate_assignment_last_wins_witness :
    runUpdate [(1, Expr.lit (Val.vint 5)), (1, Expr.lit (Val.vint 4))]
        (fun r => r.getD 0 .vnull == .vint 1)
        [[Val.vint 1, Val.vint 10], [Val.vint 2, Val.vint 20]] =
      ⟨[[Val.vint 1, Val.vint 4], [Val.vint 2, Val.vint 20]],
       [([Val.vint 1, Val.vint 10], [Val.vint 1, Val.vint 4])], 1, 1⟩ := by
  have h := duplicate_assignment_last_wins.2.2
    [[Val.vint 1, Val.vint 10], [Val.vint 2, Val.vint 20]]
    (fun r => r.getD 0 .vnull == .vint 1) 1 (by decide) (by decide)
  rw [h]
  decide

/-! ### Validation pass

Modelled from the spec: the validation pass runs once before any row is
pulled; its checks cover resolution, typing, constraints, bound
parameters, updatability of the target and distinctness of join legs.
The pass itself is absent from the source excerpt; only its error tests
are present. -/

/-- Declared column types of the modelled schema fragment. -/
inductive SqlTy where
  | tint
  | tstr
deriving DecidableEq, Repr

/-- Inferred expression types; tnull is the type of the NULL literal and
is compatible with every column type. -/
inductive ETy where
  | tnull
  | tint
  | tstr
deriving DecidableEq, Repr

/-- A column descriptor: name, declared type, nullability and
primary-key flag. -/
structure ColumnDef where
  name : String
  ty : SqlTy
  nullable : Bool
  isPk : Bool
deriving DecidableEq, Repr

/-- A base table: name, schema and current rows. -/
structure TableDef where
  name : String
  cols : List ColumnDef
  rows : List Row
deriving DecidableEq, Repr

/-- The catalog visible to one statement. -/
abbrev DB := List TableDef

def dbFind (db : DB) (t : String) : Option TableDef := db.find? (fun td => td.name == t)

/-- The update target as the planner sees it: a base table, a join
result or a subquery alias. -/
inductive UTarget where
  | baseTable (t : String)
  | joinResult
  | subqueryAlias (s : String)
deriving DecidableEq, Repr

/-- Unresolved value expressions of the statement: literals, named
column references, bound-parameter placeholders and combinators. -/
inductive VExpr where
  | lit (v : Val)
  | colRef (c : String)
  | param (n : String)
  | add (a b : VExpr)
  | eqV (a b : VExpr)
deriving DecidableEq, Repr

/-- Column names referenced by an expression. -/
def colRefsOf : VExpr → List String
  | .lit _ => []
  | .colRef c => [c]
  | .param _ => []
  | .add a b => colRefsOf a ++ colRefsOf b
  | .eqV a b => colRefsOf a ++ colRefsOf b

/-- Bound-parameter placeholders of an expression. -/
def paramsOf : VExpr → List String
  | .lit _ => []
  | .colRef _ => []
  | .param n => [n]
  | .add a b => paramsOf a ++ paramsOf b
  | .eqV a b => paramsOf a ++ paramsOf b

def valTy : Val → ETy
  | .vnull => .tnull
  | .vint _ => .tint
  | .vstr _ => .tstr

/-- Type inference for an expression against a schema and the supplied
bindings; none means the expression cannot type-check. -/
def tyOf (cols : List ColumnDef) (bs : List (String × Val)) : VExpr → Option ETy
  | .lit v => some (valTy v)
  | .colRef c =>
    match cols.find? (fun cd => cd.name == c) with
    | some cd => some (match cd.ty with | .tint => .tint | .tstr => .tstr)
    | none => none
  | .param n =>
    match bs.find? (fun b => b.1 == n) with
    | some b => some (valTy b.2)
    | none => none
  | .add a b =>
    match tyOf cols bs a, tyOf cols bs b with
    | some .tstr, _ => none
    | _, some .tstr => none
    | some _, some _ => some .tint
    | _, _ => none
  | .eqV a b =>
    match tyOf cols bs a, tyOf cols bs b with
    | some _, some _ => some .tint
    | _, _ => none

/-- Compatibility of an inferred expression type with a declared column
type: NULL fits everything, otherwise the types must agree. -/
def tyCompat : Option ETy → SqlTy → Bool
  | none, _ => false
  | some .tnull, _ => true
  | some .tint, .tint => true
  | some .tstr, .tstr => true
  | _, _ => false

def colTyOf (cols : List ColumnDef) (c : String) : SqlTy :=
  match cols.find? (fun cd => cd.name == c) with
  | some cd => cd.ty
  | none => .tint

def colNullable (cols : List ColumnDef) (c : String) : Bool :=
  match cols.find? (fun cd => cd.name == c) with
  | some cd => cd.nullable
  | none => true

/-- Whether a list of table names repeats an entry. -/
def hasDup : List String → Bool
  | [] => false
  | x :: xs => xs.contains x || hasDup xs

/-- A resolved-enough UPDATE statement as handed to the core: target,
join legs (base tables feeding the target, in join order), the ON
predicate, assignments in declared order, WHERE expression, ORDER BY
column names, window bounds and bound parameters. -/
structure UpdateStmt where
  target : UTarget
  joinLegs : List String
  joinOn : VExpr
  assigns : List (String × VExpr)
  whereExpr : VExpr
  orderByCols : List String
  limit : Option Int
  offset : Option Int
  bindings : List (String × Val)
deriving DecidableEq, Repr

/-- Error taxonomy of the engine. -/
inductive UpdateError where
  | resolutionError
  | typeError
  | constraintError
  | unsupportedFeature
  | missingParameter
deriving DecidableEq, Repr

/-- All placeholders of the statement (assignment values and WHERE). -/
def stmtParams (stmt : UpdateStmt) : List String :=
  stmt.assigns.foldr (fun a acc => paramsOf a.2 ++ acc) [] ++ paramsOf stmt.whereExpr

/-- All column names the statement references outside the target list. -/
def stmtColRefs (stmt : UpdateStmt) : List String :=
  stmt.assigns.foldr (fun a acc => colRefsOf a.2 ++ acc) [] ++ colRefsOf stmt.whereExpr ++
    stmt.orderByCols

/-- Modelled from the spec: the validation pass.  Ambiguous self-join
targets and non-updatable targets are rejected as UnsupportedFeature;
unknown tables and columns as ResolutionError; unbound placeholders as
MissingParameter; incompatible assignment types and negative window
bounds as TypeError; a NULL literal assigned to a non-nullable column as
ConstraintError.  A statement passing every check validates to none. -/
def validate (stmt : UpdateStmt) (db : DB) : Option UpdateError :=
  if hasDup stmt.joinLegs then some .unsupportedFeature
  else
    match stmt.target with
    | .joinResult => some .unsupportedFeature
    | .subqueryAlias _ => some .unsupportedFeature
    | .baseTable t =>
      match dbFind db t with
      | none => some .resolutionError
      | some td =>
        if !(stmt.joinLegs.all (fun leg => (dbFind db leg).isSome)) then some .resolutionError
        else if !(stmt.assigns.all (fun a => td.cols.any (fun cd => cd.name == a.1))) then
          some .resolutionError
        else if !((stmtColRefs stmt).all (fun c => td.cols.any (fun cd => cd.name == c))) then
          some .resolutionError
        else if !((stmtParams stmt).all
            (fun p => (stmt.bindings.find? (fun b => b.1 == p)).isSome)) then
          some .missingParameter
        else if !(stmt.assigns.all
            (fun a => tyCompat (tyOf td.cols stmt.bindings a.2) (colTyOf td.cols a.1))) then
          some .typeError
        else if stmt.assigns.any
            (fun a => a.2 == VExpr.lit Val.vnull && !(colNullable td.cols a.1)) then
          some .constraintError
        else if (match stmt.limit with | some n => decide (n < 0) | none => false) then
          some .typeError
        else if (match stmt.offset with | some n => decide (n < 0) | none => false) then
          some .typeError
        else none

/-- Resolution of a named expression to a schema-index expression, with
bound parameters substituted, as the planner hands it to the core. -/
def compileVE (cols : List ColumnDef) (bs : List (String × Val)) : VExpr → Expr
  | .lit v => .lit v
  | .colRef c => .col (cols.findIdx (fun cd => cd.name == c))
  | .param n =>
    match bs.find? (fun b => b.1 == n) with
    | some b => .lit b.2
    | none => .lit .vnull
  | .add a b => .add (compileVE cols bs a) (compileVE cols bs b)
  | .eqV a b => .eqE (compileVE cols bs a) (compileVE cols bs b)

def compileAssigns (cols : List ColumnDef) (bs : List (String × Val))
    (assigns : List (String × VExpr)) : List (Nat × Expr) :=
  assigns.map (fun a => (cols.findIdx (fun cd => cd.name == a.1), compileVE cols bs a.2))

/-- MySQL truthiness of a WHERE result: a nonzero integer. -/
def truthy : Val → Bool
  | .vint n => n != 0
  | _ => false

/-- Execution of a validated single-target statement: filter by WHERE,
apply assignments per row, write back the changed rows. -/
def runStmt (stmt : UpdateStmt) (db : DB) : DB × Nat × Nat :=
  match stmt.target with
  | .baseTable t =>
    match dbFind db t with
    | some td =>
      let asg := compileAssigns td.cols stmt.bindings stmt.assigns
      let pred := fun r => truthy (evalExpr r (compileVE td.cols stmt.bindings stmt.whereExpr))
      let res := runUpdate asg pred td.rows
      (db.map (fun x => if x.name == t then { x with rows := res.table } else x),
        res.matched, res.updated)
    | none => (db, 0, 0)
  | _ => (db, 0, 0)

/-- Statement entry point: the validation pass runs first and any
failure aborts before a row is read or written. -/
def execUpdate (stmt : UpdateStmt) (db : DB) : Except UpdateError (DB × Nat × Nat) :=
  match validate stmt db with
  | some e => .error e
  | none => .ok (runStmt stmt db)

theorem nodup_of_hasDup_eq_false (l : List String) (h : hasDup l = false) : l.Nodup := by
  induction l with
  | nil => exact List.nodup_nil
  | cons x xs ih =>
    simp only [hasDup, Bool.or_eq_false_iff] at h
    refine List.Nodup.cons ?_ (ih h.2)
    intro hmem
    have hc : xs.contains x = true := by simpa using hmem
    rw [h.1] at hc
    exact Bool.false_ne_true hc

/-- What a statement that passes validation is guaranteed to satisfy:
distinct resolvable join legs, a resolvable base-table target, known
assigned columns with compatible value types, no NULL literal assigned
into a non-nullable column, every placeholder bound, every referenced
column known and non-negative window bounds. -/
def stmtChecksOk (stmt : UpdateStmt) (db : DB) : Prop :=
  stmt.joinLegs.Nodup ∧
  ∃ t td, stmt.target = UTarget.baseTable t ∧ dbFind db t = some td ∧
    (∀ leg ∈ stmt.joinLegs, (dbFind db leg).isSome = true) ∧
    (∀ a ∈ stmt.assigns, ∃ cd ∈ td.cols, cd.name = a.1) ∧
    (∀ a ∈ stmt.assigns,
      tyCompat (tyOf td.cols stmt.bindings a.2) (colTyOf td.cols a.1) = true) ∧
    (∀ a ∈ stmt.assigns, colNullable td.cols a.1 = false → a.2 ≠ VExpr.lit Val.vnull) ∧
    (∀ p ∈ stmtParams stmt, (stmt.bindings.find? (fun b => b.1 == p)).isSome = true) ∧
    (∀ c ∈ stmtColRefs stmt, ∃ cd ∈ td.cols, cd.name = c) ∧
    (∀ n, stmt.limit = some n → 0 ≤ n) ∧
    (∀ n, stmt.offset = some n → 0 ≤ n)

theorem validate_none_checks (stmt : UpdateStmt) (db : DB) (h : validate stmt db = none) :
    stmtChecksOk stmt db := by
  unfold validate at h
  split at h
  · exact absurd h (by simp)
  · rename_i hd
    split at h
    · exact absurd h (by simp)
    · exact absurd h (by simp)
    · rename_i t heq
      split at h
      · exact absurd h (by simp)
      · rename_i td hfind
        split at h
        · exact absurd h (by simp)
        · rename_i hlegs
          split at h
          · exact absurd h (by simp)
          · rename_i hassign
            split at h
            · exact absurd h (by simp)
            · rename_i hcols
              split at h
              · exact absurd h (by simp)
              · rename_i hparams
                split at h
                · exact absurd h (by simp)
                · rename_i hty
                  split at h
                  · exact absurd h (by simp)
                  · rename_i hnull
                    split at h
                    · exact absurd h (by simp)
                    · rename_i hlim
                      split at h
                      · exact absurd h (by simp)
                      · rename_i hoff
                        refine ⟨nodup_of_hasDup_eq_false _ (by simpa using hd), t, td,
                          heq, hfind, ?_, ?_, ?_, ?_, ?_, ?_, ?_, ?_⟩
                        · intro leg hleg
                          have h2 : ∀ x ∈ stmt.joinLegs, ¬dbFind db x = none := by
                            simpa using hlegs
                          simpa [Option.isSome_iff_ne_none] using h2 leg hleg
                        · intro a ha
                          have h2 : stmt.assigns.all
                              (fun a => td.cols.any (fun cd => cd.name == a.1)) = true := by
                            simpa using hassign
                          have h3 := List.all_eq_true.mp h2 a ha
                          obtain ⟨cd, hcd, hbe⟩ := List.any_eq_true.mp h3
                          exact ⟨cd, hcd, by simpa using hbe⟩
                        · intro a ha
                          have h2 : stmt.assigns.all (fun a =>
                              tyCompat (tyOf td.cols stmt.bindings a.2) (colTyOf td.cols a.1)) =
                                true := by simpa using hty
                          exact List.all_eq_true.mp h2 a ha
                        · intro a ha hnn hlit
                          have h2 : stmt.assigns.any (fun a =>
                              a.2 == VExpr.lit Val.vnull && !(colNullable td.cols a.1)) = false := by
                            simpa using hnull
                          have h3 := List.any_eq_false.mp h2 a ha
                          apply h3
                          simp [hlit, hnn]
                        · intro p hp
                          have h2 : (stmtParams stmt).all
                              (fun p => (stmt.bindings.find? (fun b => b.1 == p)).isSome) = true := by
                            simpa using hparams
                          exact List.all_eq_true.mp h2 p hp
                        · intro c hc
                          have h2 : (stmtColRefs stmt).all
                              (fun c => td.cols.any (fun cd => cd.name == c)) = true := by
                            simpa using hcols
                          have h3 := List.all_eq_true.mp h2 c hc
                          obtain ⟨cd, hcd, hbe⟩ := List.any_eq_true.mp h3
                          exact ⟨cd, hcd, by simpa using hbe⟩
                        · intro n hn
                          rw [hn] at hlim
                          simp at hlim
                          omega
                        · intro n hn
                          rw [hn] at hoff
                          simp at hoff
                          omega

/-- Schema of the test table mytable: i BIGINT PRIMARY KEY NOT NULL,
s TEXT NOT NULL. -/
def mytableCols : List ColumnDef :=
  [⟨"i", .tint, false, true⟩, ⟨"s", .tstr, false, false⟩]

/-- Catalog holding the test table mytable. -/
def mytableDB : DB := [⟨"mytable", mytableCols, mytableRows⟩]

/-- The statement UPDATE mytable SET s = NULL from the error tests. -/
def nullAssignStmt : UpdateStmt :=
  ⟨.baseTable "mytable", [], .lit (.vint 1), [("s", .lit .vnull)], .lit (.vint 1), [],
    none, none, []⟩

/-- C5: every validation-class failure is raised by the validation pass
before any row is read or written, so the statement aborts with no
result row and an untouched catalog; a statement that validates
satisfies all the listed static checks; and assigning NULL to a
non-nullable column aborts with ConstraintError. -/
theorem validation_failures_abort_before_rows :
    (∀ (stmt : UpdateStmt) (db : DB) (e : UpdateError),
      validate stmt db = some e → execUpdate stmt db = .error e) ∧
    (∀ (stmt : UpdateStmt) (db : DB), validate stmt db = none → stmtChecksOk stmt db) ∧
    execUpdate nullAssignStmt mytableDB = .error .constraintError := by
  refine ⟨?_, validate_none_checks, by rfl⟩
  intro stmt db e h
  simp [execUpdate, h]

/-- Witness for C5: the unknown-table statement of the error tests
aborts with ResolutionError before touching the catalog. -/
theorem validation_failures_abort_before_rows_witness :
    execUpdate ⟨.baseTable "doesnotexist", [], .lit (.vint 1), [("i", .lit (.vint 0))],
        .lit (.vint 1), [], none, none, []⟩ mytableDB = .error .resolutionError ∧
    stmtChecksOk ⟨.baseTable "mytable", [], .lit (.vint 1), [("s", .lit (.vstr "x"))],
        .lit (.vint 1), [], none, none, []⟩ mytableDB := by
  constructor
  · exact validation_failures_abort_before_rows.1 _ mytableDB .resolutionError (by decide)
  · exact validation_failures_abort_before_rows.2.1 _ mytableDB (by decide)

/-- C6: a statement whose join legs repeat a base table feeding the
update target fails with UnsupportedFeature regardless of the join
predicate and the catalog, and no write happens. -/
theorem self_join_target_unsupported (stmt : UpdateStmt) (db : DB)
    (h : hasDup stmt.joinLegs = true) :
    execUpdate stmt db = .error .unsupportedFeature := by
  simp [execUpdate, validate, h]

/-- Witness for C6: the self-join test statement joining two_pk twice. -/
theorem self_join_target_unsupported_witness :
    execUpdate ⟨.baseTable "two_pk", ["one_pk", "two_pk", "two_pk"],
        .eqV (.colRef "pk1") (.colRef "pk2"),
        [("c1", .add (.colRef "c1") (.lit (.vint 1)))], .lit (.vint 1), [],
        none, none, []⟩ [] = .error .unsupportedFeature :=
  self_join_target_unsupported _ [] (by decide)

/-! ### The EXISTS operator -/

/-- Dynamic values as the Go interface layer sees them; vlist stands for
a Go slice of interface values. -/
inductive GoVal where
  | vnil
  | vbool (b : Bool)
  | vgint (n : Int)
  | vgstr (s : String)
  | vlist (xs : List GoVal)

/-- SQL scalars injected into the dynamic layer; a scalar is never a
slice. -/
def goValOfVal : Val → GoVal
  | .vnull => .vnil
  | .vint n => .vgint n
  | .vstr s => .vgstr s

/-- Errors surfaced by nested-plan evaluation. -/
abbrev SqlError := String

/-- Stand-in for the subquery expression held by the EXISTS node. -/
inductive SqExpr where
  | mk (id : Nat)
deriving DecidableEq, Repr

/-- The ExistsOperator node of the source: it holds one subquery
expression. -/
structure ExistsOperator where
  subquery : SqExpr
deriving DecidableEq, Repr

def NewExistsOperator (q : SqExpr) : ExistsOperator := ⟨q⟩

/-- Eval of ExistsOperator from the source: evaluate the subquery
expression; propagate its error; answer false exactly when the dynamic
result is a slice, true otherwise. -/
def ExistsOperator.eval (e : ExistsOperator) (subEval : SqExpr → Row → Except SqlError GoVal)
    (r : Row) : Except SqlError GoVal :=
  match subEval e.subquery r with
  | .error err => .error err
  | .ok v =>
    match v with
    | .vlist _ => .ok (.vbool false)
    | _ => .ok (.vbool true)

/-- IsNullable of ExistsOperator from the source. -/
def ExistsOperator.isNullable (_ : ExistsOperator) : Bool := false

/-- WithChildren of ExistsOperator from the source: a fresh node is
constructed and the receiver is left unchanged; the pair's first
component is the receiver's state after the call. -/
def ExistsOperator.withChildren (e : ExistsOperator) (children : List SqExpr) :
    ExistsOperator × Except String ExistsOperator :=
  match children with
  | [c] => (e, .ok (NewExistsOperator c))
  | _ => (e, .error "invalid children number")

/-- Modelled from the spec: scalar-subquery evaluation as the EXISTS
node consumes it (the Subquery expression is absent from the source
excerpt).  The nested plan is opened fresh for the given outer row and
drained; an empty production surfaces as the empty dynamic slice, and a
nonempty one as its first row's scalar value. -/
def subqueryEval (produce : Row → Except SqlError (List Val)) (r : Row) :
    Except SqlError GoVal :=
  match produce r with
  | .error e => .error e
  | .ok [] => .ok (.vlist [])
  | .ok (v :: _) => .ok (goValOfVal v)

/-- C7: EXISTS evaluates to boolean false on a subquery producing zero
rows and boolean true on one producing at least one row, whatever the
row's value (NULL included); it never produces a null value, and a
subquery error is propagated as the expression's error. -/
theorem exists_eval_boolean (e : ExistsOperator) (produce : Row → Except SqlError (List Val))
    (r : Row) :
    (produce r = .ok [] →
      e.eval (fun _ => subqueryEval produce) r = .ok (.vbool false)) ∧
    (∀ v vs, produce r = .ok (v :: vs) →
      e.eval (fun _ => subqueryEval produce) r = .ok (.vbool true)) ∧
    (∀ err, produce r = .error err →
      e.eval (fun _ => subqueryEval produce) r = .error err) ∧
    ((∃ err, e.eval (fun _ => subqueryEval produce) r = .error err) ∨
      (∃ b, e.eval (fun _ => subqueryEval produce) r = .ok (.vbool b))) ∧
    e.isNullable = false := by
  refine ⟨?_, ?_, ?_, ?_, rfl⟩
  · intro h
    simp [ExistsOperator.eval, subqueryEval, h]
  · intro v vs h
    cases v <;> simp [ExistsOperator.eval, subqueryEval, goValOfVal, h]
  · intro err h
    simp [ExistsOperator.eval, subqueryEval, h]
  · rcases hp : produce r with err | vs
    · exact Or.inl ⟨err, by simp [ExistsOperator.eval, subqueryEval, hp]⟩
    · cases vs with
      | nil => exact Or.inr ⟨false, by simp [ExistsOperator.eval, subqueryEval, hp]⟩
      | cons v vtl =>
        exact Or.inr ⟨true, by cases v <;>
          simp [ExistsOperator.eval, subqueryEval, goValOfVal, hp]⟩

/-- Witness for C7: a zero-row subquery gives false and a one-row
subquery whose only value is NULL gives true. -/
theorem exists_eval_boolean_witness :
    ExistsOperator.eval ⟨SqExpr.mk 0⟩ (fun _ => subqueryEval (fun _ => .ok [])) [] =
      .ok (.vbool false) ∧
    ExistsOperator.eval ⟨SqExpr.mk 0⟩ (fun _ => subqueryEval (fun _ => .ok [Val.vnull])) [] =
      .ok (.vbool true) := by
  constructor
  · exact (exists_eval_boolean ⟨SqExpr.mk 0⟩ (fun _ => .ok []) []).1 rfl
  · exact (exists_eval_boolean ⟨SqExpr.mk 0⟩ (fun _ => .ok [Val.vnull]) []).2.1 Val.vnull [] rfl

/-! ### The LOAD DATA node and its package-level parsing state

The source keeps the delimiter configuration in package-level variables
that updateParsingConsts overwrites from the node's clauses; the
embedding passes that package state explicitly as a ParseConfig value
threaded through every call. -/

/-- The six package-level parsing variables of the source file, as one
explicit state record.  Strings are embedded as character lists so that
Go's byte indexing and slicing stay visible. -/
structure ParseConfig where
  fieldsTerminatedBy : List Char
  fieldsEnclosedBy : List Char
  fieldsOptionally : Bool
  fieldsEscapedBy : List Char
  linesTerminatedBy : List Char
  linesStartingBy : List Char
deriving DecidableEq, Repr

/-- Initial values of the package-level variables. -/
def defaultParseConfig : ParseConfig :=
  ⟨['\t'], [], false, ['\\'], ['\n'], []⟩

/-- The ENCLOSED BY clause: optional flag plus optional delimiter. -/
structure EnclosedBy where
  optionally : Bool
  delim : Option (List Char)
deriving DecidableEq, Repr

/-- The FIELDS clause of a LOAD DATA statement. -/
structure FieldsClause where
  terminatedBy : Option (List Char)
  escapedBy : Option (List Char)
  enclosedBy : Option EnclosedBy
deriving DecidableEq, Repr

/-- The LINES clause of a LOAD DATA statement. -/
structure LinesClause where
  startingBy : Option (List Char)
  terminatedBy : Option (List Char)
deriving DecidableEq, Repr

/-- Stand-in for the destination plan node a LoadData node owns. -/
inductive SqlNode where
  | table (name : String)
  | other (id : Nat)
deriving DecidableEq, Repr

/-- The LoadData plan node of the source. -/
structure LoadData where
  Local : Bool
  File : String
  Destination : SqlNode
  ColumnNames : List String
  ResponsePacketSent : Bool
  Fields : Option FieldsClause
  Lines : Option LinesClause
  IgnoreNum : Int
deriving DecidableEq, Repr

def NewLoadData (local_ : Bool) (file : String) (destination : SqlNode)
    (cols : List String) (fields : Option FieldsClause) (lines : Option LinesClause)
    (ignoreNum : Int) : LoadData :=
  ⟨local_, file, destination, cols, false, fields, lines, ignoreNum⟩

/-- WithChildren of LoadData from the source: the receiver's Destination
field is reassigned in place and the receiver itself is returned.  The
pair's first component is the receiver's state after the call. -/
def LoadData.withChildren (l : LoadData) (children : List SqlNode) :
    LoadData × Except String LoadData :=
  match children with
  | [c] =>
    let l2 := { l with Destination := c }
    (l2, .ok l2)
  | _ => (l, .error "invalid children number")

/-- Overwrite of the ENCLOSED BY related package variables, faithful to
the source's order: the optional flag is set before the delimiter length
check can fail. -/
def applyEnclosed (enc : Option EnclosedBy) (g : ParseConfig) : ParseConfig × Option String :=
  match enc with
  | none => (g, none)
  | some e =>
    let g1 := if e.optionally then { g with fieldsOptionally := true } else g
    match e.delim with
    | none => (g1, none)
    | some d =>
      if d.length > 1 then (g1, some "error: LOAD DATA ENCLOSED BY must be 1 character long")
      else ({ g1 with fieldsEnclosedBy := d }, none)

/-- The updateParsingConsts method from the source: each clause the node
specifies overwrites the corresponding package variable; unspecified
settings keep whatever value the package variables already hold.  An
over-long ESCAPED BY or ENCLOSED BY aborts, leaving the variables
already written in place. -/
def LoadData.updateParsingConsts (l : LoadData) (g : ParseConfig) : ParseConfig × Option String :=
  let g1 :=
    match l.Lines with
    | none => g
    | some ll =>
      let ga := match ll.startingBy with
        | none => g
        | some v => { g with linesStartingBy := v }
      match ll.terminatedBy with
      | none => ga
      | some v => { ga with linesTerminatedBy := v }
  match l.Fields with
  | none => (g1, none)
  | some lf =>
    let g2 := match lf.terminatedBy with
      | none => g1
      | some v => { g1 with fieldsTerminatedBy := v }
    match lf.escapedBy with
    | some v =>
      if v.length > 1 then (g2, some "error: LOAD DATA ESCAPED BY must be 1 character long")
      else applyEnclosed lf.enclosedBy { g2 with fieldsEscapedBy := v }
    | none => applyEnclosed lf.enclosedBy g2

/-- Go's strings.HasPrefix on character lists. -/
def hasPrefixL : List Char → List Char → Bool
  | _, [] => true
  | [], _ :: _ => false
  | a :: s, b :: p => a == b && hasPrefixL s p

/-- Go's strings.Index on character lists: index of the first occurrence
of the pattern, none when absent. -/
def findSub (s pat : List Char) : Option Nat :=
  match s with
  | [] => if pat.isEmpty then some 0 else none
  | _ :: rest =>
    if hasPrefixL s pat then some 0
    else (findSub rest pat).map (fun i => i + 1)

/-- Worker for Go's strings.Split with a nonempty separator: scan one
character at a time; on a separator match emit the current field and
skip the separator's remaining characters with the counter. -/
def splitGoAux (sep : List Char) : Nat → List Char → List Char → List (List Char)
  | _, cur, [] => [cur.reverse]
  | skip + 1, cur, _ :: rest => splitGoAux sep skip cur rest
  | 0, cur, c :: rest =>
    if hasPrefixL (c :: rest) sep then
      cur.reverse :: splitGoAux sep (sep.length - 1) [] rest
    else splitGoAux sep 0 (c :: cur) rest

/-- Go's strings.Split: an empty separator splits into single
characters. -/
def splitGo (s sep : List Char) : List (List Char) :=
  match sep with
  | [] => s.map (fun c => [c])
  | _ :: _ => splitGoAux sep 0 [] s

/-- The parseLinePrefix helper from the source: with no LINES STARTING
BY delimiter the line passes through; otherwise everything up to and
including the first occurrence is dropped, and a line without the
delimiter becomes empty (skipped). -/
def stripLineStart (g : ParseConfig) (line : List Char) : List Char :=
  if g.linesStartingBy.isEmpty then line
  else
    match findSub line g.linesStartingBy with
    | none => []
    | some i => line.drop (i + g.linesStartingBy.length)

/-- Result of the enclosure check of one split field.  panicked models a
Go runtime out-of-range panic: indexing field[0] of an empty field, or
slicing field[1 : len-1] of a one-character field that equals the
delimiter. -/
inductive FieldRes where
  | panicked
  | notEnclosed
  | stripped (f : List Char)
deriving DecidableEq, Repr

/-- The per-field enclosure check of parseFields from the source:
compare the one-byte strings at field[0] and field[len(field)-1] with
the delimiter and strip them via field[1 : len(field)-1]. -/
def checkEnclosed (encl : List Char) (f : List Char) : FieldRes :=
  match f with
  | [] => .panicked
  | a :: rest =>
    if [a] = encl then
      match rest.getLast? with
      | none => .panicked
      | some b => if [b] = encl then .stripped rest.dropLast else .notEnclosed
    else .notEnclosed

/-- Result of checking every field of a line. -/
inductive FieldsRes where
  | panicked
  | notEnclosed
  | stripped (fs : List (List Char))
deriving DecidableEq, Repr

/-- The enclosure loop of parseFields: every field must be enclosed; the
first offending field aborts the line. -/
def stripAll (encl : List Char) : List (List Char) → FieldsRes
  | [] => .stripped []
  | f :: fs =>
    match checkEnclosed encl f with
    | .panicked => .panicked
    | .notEnclosed => .notEnclosed
    | .stripped f2 =>
      match stripAll encl fs with
      | .panicked => .panicked
      | .notEnclosed => .notEnclosed
      | .stripped fs2 => .stripped (f2 :: fs2)

/-- Outcome of parseFields on one line: a Go panic, an error return, the
nil-nil skip, or the list of literal field expressions. -/
inductive ParseOut where
  | panicked
  | failed (msg : String)
  | skipped
  | fields (fs : List (List Char))
deriving DecidableEq, Repr

/-- The parseFields function from the source: strip the line prefix,
skip an empty line, split on the fields terminator, and when an
ENCLOSED BY delimiter is configured require every field enclosed and
strip the enclosure. -/
def parseFields (g : ParseConfig) (line0 : List Char) : ParseOut :=
  let line := stripLineStart g line0
  if line.isEmpty then .skipped
  else
    let fields := splitGo line g.fieldsTerminatedBy
    if g.fieldsEnclosedBy.isEmpty then .fields fields
    else
      match stripAll g.fieldsEnclosedBy fields with
      | .panicked => .panicked
      | .notEnclosed => .failed "error: dield not properly enclosed"
      | .stripped fs => .fields fs

/-- A literal expression produced by the ingestion path: a string
literal from a parsed field or the NULL padding literal. -/
inductive LoadLit where
  | strLit (s : List Char)
  | nullLit
deriving DecidableEq, Repr

/-- The addNullsToValues helper from the source: append one NULL literal
per missing column; a non-positive difference appends nothing. -/
def addNullsToValues (exprs : List LoadLit) (diff : Int) : List LoadLit :=
  exprs ++ List.replicate diff.toNat .nullLit

/-- Outcome of the whole row-iteration scan. -/
inductive LoadOut where
  | panicked
  | failed (msg : String)
  | rows (vs : List (List LoadLit))
deriving DecidableEq, Repr

/-- The scan loop of LoadData.RowIter: lines are skipped while the
receiver's IgnoreNum field is still positive (the field is decremented
in place); other lines go through parseFields and are padded with NULL
literals up to the destination schema width. -/
def loadLoop (g : ParseConfig) (schemaLen : Nat) :
    List (List Char) → LoadData → List (List LoadLit) → LoadData × LoadOut
  | [], l, acc => (l, .rows acc)
  | line :: rest, l, acc =>
    if l.IgnoreNum ≤ 0 then
      match parseFields g line with
      | .panicked => (l, .panicked)
      | .failed msg => (l, .failed msg)
      | .skipped => loadLoop g schemaLen rest l acc
      | .fields fs =>
        let exprs := addNullsToValues (fs.map .strLit) ((schemaLen : Int) - fs.length)
        loadLoop g schemaLen rest l (acc ++ [exprs])
    else loadLoop g schemaLen rest { l with IgnoreNum := l.IgnoreNum - 1 } acc

/-- The RowIter method of LoadData with the file contents supplied as
scanned lines and the destination schema width as input: the package
parsing variables are updated first (aborting on a clause error), then
the scan loop runs.  The returned triple is the package state, the
receiver's state and the produced values. -/
def LoadData.rowIterModel (l : LoadData) (g : ParseConfig) (schemaLen : Nat)
    (fileLines : List (List Char)) : ParseConfig × LoadData × LoadOut :=
  match l.updateParsingConsts g with
  | (g1, some e) => (g1, l, .failed e)
  | (g1, none) =>
    let res := loadLoop g1 schemaLen fileLines l []
    (g1, res.1, res.2)

example : splitGo "a\t\tb".toList ['\t'] = [['a'], [], ['b']] := by decide

example : parseFields defaultParseConfig "a\tb".toList = .fields [['a'], ['b']] := by decide

example :
    parseFields { defaultParseConfig with fieldsEnclosedBy := ['"'] }
      "\"a\"\t\"b\"".toList = .fields [['a'], ['b']] := by decide

example :
    parseFields { defaultParseConfig with fieldsEnclosedBy := ['"'] } "\t".toList =
      .panicked := by decide

example :
    parseFields { defaultParseConfig with fieldsEnclosedBy := ['"'] } "\"".toList =
      .panicked := by decide

example :
    parseFields { defaultParseConfig with fieldsEnclosedBy := ['"'] } "a\tb".toList =
      .failed "error: dield not properly enclosed" := by decide

/-! ### Node mutability (C8) -/

/-- A LoadData node with no FIELDS or LINES clauses. -/
def loadDataPlain : LoadData := NewLoadData false "f" (SqlNode.table "t") [] none none 0

/-- Counterexample to C8: WithChildren on a LoadData node mutates the
receiver in place (its Destination field changes), so plan nodes are not
immutable after construction. -/
theorem plan_node_immutability_cex :
    (loadDataPlain.withChildren [SqlNode.table "u"]).1 ≠ loadDataPlain := by decide

/-- Run of the scan loop over lines that are all consumed by the ignore
counter: the receiver comes back with IgnoreNum decremented once per
line and no values produced. -/
theorem loadLoop_skips (g : ParseConfig) (schemaLen : Nat) :
    ∀ (lines : List (List Char)) (l : LoadData) (acc : List (List LoadLit)),
      (lines.length : Int) ≤ l.IgnoreNum →
      loadLoop g schemaLen lines l acc =
        ({ l with IgnoreNum := l.IgnoreNum - lines.length }, .rows acc) := by
  intro lines
  induction lines with
  | nil =>
    intro l acc _
    simp [loadLoop]
  | cons line rest ih =>
    intro l acc h
    have hpos : ¬ l.IgnoreNum ≤ 0 := by
      simp only [List.length_cons] at h
      omega
    have hrec := ih { l with IgnoreNum := l.IgnoreNum - 1 } acc (by
      simp only [List.length_cons] at h
      simp
      omega)
    simp only [loadLoop, if_neg hpos, hrec, Prod.mk.injEq]
    refine ⟨?_, trivial⟩
    congr 1
    simp only [List.length_cons]
    push_cast
    omega

/-- C8 as amended: ExistsOperator.WithChildren builds a fresh node and
leaves the receiver unchanged, but LoadData.WithChildren reassigns the
receiver's Destination in place and returns that same node, and
LoadData.RowIter mutates the receiver's IgnoreNum field (here: a run
whose lines are all ignored decrements it once per line). -/
theorem plan_node_immutability_amended :
    (∀ (e : ExistsOperator) (c : SqExpr),
      e.withChildren [c] = (e, .ok (NewExistsOperator c))) ∧
    (∀ (l : LoadData) (c : SqlNode),
      (l.withChildren [c]).1 = { l with Destination := c } ∧
      (l.withChildren [c]).2 = .ok { l with Destination := c }) ∧
    (∀ (l : LoadData) (g g1 : ParseConfig) (schemaLen : Nat) (fileLines : List (List Char)),
      l.updateParsingConsts g = (g1, none) →
      (fileLines.length : Int) ≤ l.IgnoreNum →
      ((l.rowIterModel g schemaLen fileLines).2.1).IgnoreNum =
        l.IgnoreNum - fileLines.length) := by
  refine ⟨fun e c => rfl, fun l c => ⟨rfl, rfl⟩, ?_⟩
  intro l g g1 schemaLen fileLines hupd hlen
  simp only [LoadData.rowIterModel, hupd, loadLoop_skips g1 schemaLen fileLines l [] hlen]

/-- Witness for the amended C8: a node with IgnoreNum 2 scanned over two
lines comes back with IgnoreNum 0. -/
theorem plan_node_immutability_amended_witness :
    (((NewLoadData false "f" (SqlNode.table "t") [] none none 2).rowIterModel
        defaultParseConfig 2 [['a'], ['b']]).2.1).IgnoreNum = 0 := by
  have h := plan_node_immutability_amended.2.2
    (NewLoadData false "f" (SqlNode.table "t") [] none none 2)
    defaultParseConfig defaultParseConfig 2 [['a'], ['b']] (by decide) (by decide)
  rw [h]
  decide

/-! ### Per-invocation parsing configuration (C9) -/

/-- A LoadData node specifying ENCLOSED BY the double quote and nothing
else. -/
def loadDataEnclosed : LoadData :=
  NewLoadData false "g" (SqlNode.table "t") []
    (some ⟨none, none, some ⟨false, some ['"']⟩⟩) none 0

/-- The package state left behind by running loadDataEnclosed on the
default state. -/
def enclosureConfig : ParseConfig := { defaultParseConfig with fieldsEnclosedBy := ['"'] }

/-- Counterexample to C9: the node with no FIELDS or LINES clauses
leaves the package variables untouched, so after an interleaved
invocation of loadDataEnclosed the very same node parses the very same
line differently: parsing depends on package-level state, not only on
the invoking node's own configuration. -/
theorem parse_state_per_invocation_cex :
    loadDataPlain.updateParsingConsts defaultParseConfig = (defaultParseConfig, none) ∧
    loadDataEnclosed.updateParsingConsts defaultParseConfig = (enclosureConfig, none) ∧
    loadDataPlain.updateParsingConsts enclosureConfig = (enclosureConfig, none) ∧
    parseFields defaultParseConfig "\"a\"\t\"b\"".toList ≠
      parseFields enclosureConfig "\"a\"\t\"b\"".toList := by
  refine ⟨by decide, by decide, by decide, by decide⟩

theorem parseFields_congr (g g2 : ParseConfig) (line : List Char)
    (h1 : g.linesStartingBy = g2.linesStartingBy)
    (h2 : g.fieldsTerminatedBy = g2.fieldsTerminatedBy)
    (h3 : g.fieldsEnclosedBy = g2.fieldsEnclosedBy) :
    parseFields g line = parseFields g2 line := by
  simp [parseFields, stripLineStart, h1, h2, h3]

theorem updateParsingConsts_full (l : LoadData) (g : ParseConfig)
    (st lt ft d : List Char) (opt : Bool)
    (hls : l.Lines = some ⟨some st, some lt⟩)
    (hf : l.Fields = some ⟨some ft, none, some ⟨opt, some d⟩⟩)
    (hd : ¬ d.length > 1) :
    (l.updateParsingConsts g).1.linesStartingBy = st ∧
    (l.updateParsingConsts g).1.fieldsTerminatedBy = ft ∧
    (l.updateParsingConsts g).1.fieldsEnclosedBy = d := by
  cases opt <;> simp [LoadData.updateParsingConsts, applyEnclosed, hls, hf, hd]

/-- C9 as amended: parseFields reads the package-level configuration,
which an invocation only partially overwrites.  A node with no FIELDS
and LINES clauses leaves the package state exactly as the previous
invocation left it; only a node that itself specifies the line start,
the field terminator and the enclosure delimiter parses independently of
whatever invocation ran before. -/
theorem parse_state_per_invocation_amended :
    (∀ (l : LoadData) (g : ParseConfig), l.Fields = none → l.Lines = none →
      l.updateParsingConsts g = (g, none)) ∧
    (∀ (l : LoadData) (g g2 : ParseConfig) (line st lt ft d : List Char) (opt : Bool),
      l.Lines = some ⟨some st, some lt⟩ →
      l.Fields = some ⟨some ft, none, some ⟨opt, some d⟩⟩ →
      ¬ d.length > 1 →
      parseFields (l.updateParsingConsts g).1 line =
        parseFields (l.updateParsingConsts g2).1 line) := by
  constructor
  · intro l g hf hl
    simp [LoadData.updateParsingConsts, hf, hl]
  · intro l g g2 line st lt ft d opt hls hf hd
    obtain ⟨a1, a2, a3⟩ := updateParsingConsts_full l g st lt ft d opt hls hf hd
    obtain ⟨b1, b2, b3⟩ := updateParsingConsts_full l g2 st lt ft d opt hls hf hd
    exact parseFields_congr _ _ line (a1.trans b1.symm) (a2.trans b2.symm) (a3.trans b3.symm)

/-- A LoadData node specifying every parsing-relevant clause. -/
def loadDataFull : LoadData :=
  NewLoadData false "h" (SqlNode.table "t") []
    (some ⟨some [','], none, some ⟨false, some ['"']⟩⟩)
    (some ⟨some ['>'], some ['\n']⟩) 0

/-- Witness for the amended C9: the clause-less node keeps any package
state, and the fully specified node parses a line identically from two
different prior package states. -/
theorem parse_state_per_invocation_amended_witness :
    loadDataPlain.updateParsingConsts enclosureConfig = (enclosureConfig, none) ∧
    parseFields (loadDataFull.updateParsingConsts defaultParseConfig).1 ">\"a\",\"b\"".toList =
      parseFields (loadDataFull.updateParsingConsts enclosureConfig).1 ">\"a\",\"b\"".toList := by
  constructor
  · exact parse_state_per_invocation_amended.1 loadDataPlain enclosureConfig rfl rfl
  · exact parse_state_per_invocation_amended.2 loadDataFull defaultParseConfig enclosureConfig
      ">\"a\",\"b\"".toList ['>'] ['\n'] [','] ['"'] false rfl rfl (by decide)

/-! ### Totality of parseFields (C10) -/

/-- Counterexample to C10: with a one-character ENCLOSED BY delimiter
configured, a line that splits into an empty field makes the source
index field[0] out of range (a Go runtime panic, modelled as the
panicked outcome), so parseFields is not total and the first-character
access is not in bounds for the empty field. -/
theorem parse_fields_total_cex :
    parseFields { defaultParseConfig with fieldsEnclosedBy := ['"'] } ['\t'] =
      .panicked := by decide

theorem checkEnclosed_ne_panic (encl f : List Char) (h : 2 ≤ f.length) :
    checkEnclosed encl f ≠ .panicked := by
  match f, h with
  | a :: b :: rest, _ =>
    simp only [checkEnclosed]
    split
    · cases hlast : (b :: rest).getLast? with
      | none => simp [List.getLast?_eq_none_iff] at hlast
      | some c =>
        simp only
        split <;> simp
    · simp

theorem stripAll_ne_panic (encl : List Char) (fs : List (List Char))
    (h : ∀ f ∈ fs, 2 ≤ f.length) : stripAll encl fs ≠ .panicked := by
  induction fs with
  | nil => simp [stripAll]
  | cons f fs ih =>
    simp only [stripAll]
    have hf := checkEnclosed_ne_panic encl f (h f (List.mem_cons_self f fs))
    cases hc : checkEnclosed encl f with
    | panicked => exact absurd hc hf
    | notEnclosed => simp
    | stripped f2 =>
      have := ih (fun x hx => h x (List.mem_cons_of_mem f hx))
      cases hs : stripAll encl fs with
      | panicked => exact absurd hs this
      | notEnclosed => simp
      | stripped fs2 => simp

/-- C10 as amended: parseFields is total (never an out-of-range access)
whenever no enclosure delimiter is configured, and with one configured
it is total whenever every split field has at least two characters; an
empty split field (or a one-character field equal to the delimiter) hits
the out-of-range access shown by the counterexample. -/
theorem parse_fields_total_amended :
    (∀ (g : ParseConfig) (line : List Char), g.fieldsEnclosedBy = [] →
      parseFields g line ≠ .panicked) ∧
    (∀ (g : ParseConfig) (line : List Char),
      (∀ f ∈ splitGo (stripLineStart g line) g.fieldsTerminatedBy, 2 ≤ f.length) →
      parseFields g line ≠ .panicked) := by
  constructor
  · intro g line hg
    simp only [parseFields]
    split
    · simp
    · simp [hg]
  · intro g line h
    simp only [parseFields]
    split
    · simp
    · split
      · simp
      · have := stripAll_ne_panic g.fieldsEnclosedBy
          (splitGo (stripLineStart g line) g.fieldsTerminatedBy) h
        cases hs : stripAll g.fieldsEnclosedBy
            (splitGo (stripLineStart g line) g.fieldsTerminatedBy) with
        | panicked => exact absurd hs this
        | notEnclosed => simp
        | stripped fs => simp

/-- Witness for the amended C10: the default configuration parses any
line without panic, and the enclosure configuration parses a properly
enclosed line without panic. -/
theorem parse_fields_total_amended_witness :
    parseFields defaultParseConfig "a\tb".toList ≠ .panicked ∧
    parseFields enclosureConfig "\"ab\"".toList ≠ .panicked := by
  constructor
  · exact parse_fields_total_amended.1 defaultParseConfig "a\tb".toList rfl
  · exact parse_fields_total_amended.2 enclosureConfig "\"ab\"".toList (by decide)

end GmsSpec
